import Mathlib

set_option maxRecDepth 1000000

/-!
Verification development for the `CarGarageContract` chaincode
(`src/chaincode-typescript/src/garage/cars/controller.ts`).

The contract manages `Cars` asset records in a replicated key-value world
state.  Every write first canonicalises the record with
`sort-keys-recursive` and serialises it with `json-stringify-deterministic`
(spec section 4.1); the world-state stub offers get/put/delete/range-scan
(spec section 4.2).  Those two collaborators are external packages, so their
definitions below are modelled from the spec; the contract operations
themselves are translated directly from `controller.ts`.

Conventions of the embedding:
* byte sequences are modelled as `List Char` (the stored values are UTF-8
  text produced by `Buffer.from(string)`);
* JavaScript exceptions become `Except ContractErr`; every operation of the
  controller performs all of its reads and existence checks before its
  single write, so an error value means the world state was left untouched
  (spec section 7: no partial writes survive a failed operation);
* `undefined` produced by destructuring a parsed JSON value is modelled as
  `Option Json` (`none` = `undefined`), and `JSON.stringify` dropping
  `undefined`-valued properties is modelled by `List.filterMap`.
-/

/-- JSON values as produced by `JSON.parse`.  Numbers are modelled as the
integers this contract actually stores (`Year`, `Mileage`). -/
inductive Json where
  | null : Json
  | bool (b : Bool) : Json
  | num (n : Int) : Json
  | str (s : String) : Json
  | arr (elems : List Json) : Json
  | obj (fields : List (String × Json)) : Json

mutual
/-- Decidable equality of JSON values (written by hand: `deriving` does not
handle nested inductives in this toolchain). -/
def Json.decEq : (a b : Json) → Decidable (a = b)
  | .null, .null => isTrue rfl
  | .null, .bool _ => isFalse (fun h => Json.noConfusion h)
  | .null, .num _ => isFalse (fun h => Json.noConfusion h)
  | .null, .str _ => isFalse (fun h => Json.noConfusion h)
  | .null, .arr _ => isFalse (fun h => Json.noConfusion h)
  | .null, .obj _ => isFalse (fun h => Json.noConfusion h)
  | .bool _, .null => isFalse (fun h => Json.noConfusion h)
  | .bool a, .bool b =>
    if h : a = b then isTrue (h ▸ rfl) else isFalse (fun hh => h (Json.bool.inj hh))
  | .bool _, .num _ => isFalse (fun h => Json.noConfusion h)
  | .bool _, .str _ => isFalse (fun h => Json.noConfusion h)
  | .bool _, .arr _ => isFalse (fun h => Json.noConfusion h)
  | .bool _, .obj _ => isFalse (fun h => Json.noConfusion h)
  | .num _, .null => isFalse (fun h => Json.noConfusion h)
  | .num _, .bool _ => isFalse (fun h => Json.noConfusion h)
  | .num a, .num b =>
    if h : a = b then isTrue (h ▸ rfl) else isFalse (fun hh => h (Json.num.inj hh))
  | .num _, .str _ => isFalse (fun h => Json.noConfusion h)
  | .num _, .arr _ => isFalse (fun h => Json.noConfusion h)
  | .num _, .obj _ => isFalse (fun h => Json.noConfusion h)
  | .str _, .null => isFalse (fun h => Json.noConfusion h)
  | .str _, .bool _ => isFalse (fun h => Json.noConfusion h)
  | .str _, .num _ => isFalse (fun h => Json.noConfusion h)
  | .str a, .str b =>
    if h : a = b then isTrue (h ▸ rfl) else isFalse (fun hh => h (Json.str.inj hh))
  | .str _, .arr _ => isFalse (fun h => Json.noConfusion h)
  | .str _, .obj _ => isFalse (fun h => Json.noConfusion h)
  | .arr _, .null => isFalse (fun h => Json.noConfusion h)
  | .arr _, .bool _ => isFalse (fun h => Json.noConfusion h)
  | .arr _, .num _ => isFalse (fun h => Json.noConfusion h)
  | .arr _, .str _ => isFalse (fun h => Json.noConfusion h)
  | .arr a, .arr b =>
    match Json.decEqList a b with
    | isTrue h => isTrue (h ▸ rfl)
    | isFalse h => isFalse (fun hh => h (Json.arr.inj hh))
  | .arr _, .obj _ => isFalse (fun h => Json.noConfusion h)
  | .obj _, .null => isFalse (fun h => Json.noConfusion h)
  | .obj _, .bool _ => isFalse (fun h => Json.noConfusion h)
  | .obj _, .num _ => isFalse (fun h => Json.noConfusion h)
  | .obj _, .str _ => isFalse (fun h => Json.noConfusion h)
  | .obj _, .arr _ => isFalse (fun h => Json.noConfusion h)
  | .obj a, .obj b =>
    match Json.decEqFields a b with
    | isTrue h => isTrue (h ▸ rfl)
    | isFalse h => isFalse (fun hh => h (Json.obj.inj hh))

/-- Decidable equality of JSON value lists. -/
def Json.decEqList : (a b : List Json) → Decidable (a = b)
  | [], [] => isTrue rfl
  | [], _ :: _ => isFalse (fun h => List.noConfusion h)
  | _ :: _, [] => isFalse (fun h => List.noConfusion h)
  | x :: xs, y :: ys =>
    match Json.decEq x y with
    | isFalse h => isFalse (fun hh => h (List.cons.inj hh).1)
    | isTrue h1 =>
      match Json.decEqList xs ys with
      | isTrue h2 => isTrue (by rw [h1, h2])
      | isFalse h => isFalse (fun hh => h (List.cons.inj hh).2)

/-- Decidable equality of JSON field lists. -/
def Json.decEqFields : (a b : List (String × Json)) → Decidable (a = b)
  | [], [] => isTrue rfl
  | [], _ :: _ => isFalse (fun h => List.noConfusion h)
  | _ :: _, [] => isFalse (fun h => List.noConfusion h)
  | (k, v) :: xs, (k', v') :: ys =>
    if hk : k = k' then
      match Json.decEq v v' with
      | isFalse h =>
        isFalse (fun hh => h (congrArg Prod.snd (List.cons.inj hh).1))
      | isTrue h1 =>
        match Json.decEqFields xs ys with
        | isTrue h2 => isTrue (by rw [hk, h1, h2])
        | isFalse h => isFalse (fun hh => h (List.cons.inj hh).2)
    else isFalse (fun hh => hk (congrArg Prod.fst (List.cons.inj hh).1))
end

instance : DecidableEq Json := Json.decEq

/-- Strict code-point order on character lists (the order used by the
default JavaScript `Array.sort` comparator on keys). -/
def charListLtB : List Char → List Char → Bool
  | x :: xs, y :: ys =>
    decide (x.toNat < y.toNat) || (decide (x.toNat = y.toNat) && charListLtB xs ys)
  | [], _ :: _ => true
  | _, [] => false

/-- Strict lexicographic order on strings, as a boolean. -/
def strLtB (a b : String) : Bool := charListLtB a.data b.data

/-- Modelled from the spec (section 4.1): JSON string escaping used by the
deterministic serializer (the `json-stringify-deterministic` package, not
part of this repository).  The quote, backslash and the common control
characters get two-character escapes; remaining characters are emitted
verbatim. -/
def escChar (c : Char) : List Char :=
  if c = '"' then ['\\', '"']
  else if c = '\\' then ['\\', '\\']
  else if c = '\n' then ['\\', 'n']
  else if c = '\t' then ['\\', 't']
  else if c = '\r' then ['\\', 'r']
  else if c = '\x08' then ['\\', 'b']
  else if c = '\x0c' then ['\\', 'f']
  else [c]

/-- Escape a whole character list. -/
def escList : List Char → List Char
  | [] => []
  | c :: cs => escChar c ++ escList cs

/-- Decimal digits of `n` (fuel-driven so that it is structurally
recursive; `natRepr` supplies sufficient fuel). -/
def natReprAux : Nat → Nat → List Char
  | 0, _ => []
  | fuel + 1, n =>
    if n < 10 then [Nat.digitChar n]
    else natReprAux fuel (n / 10) ++ [Nat.digitChar (n % 10)]

/-- Modelled from the spec (section 4.1): the single fixed textual number
representation — plain decimal. -/
def natRepr (n : Nat) : List Char := natReprAux (n + 1) n

/-- Decimal representation of an integer, as JavaScript prints integral
numbers. -/
def intRepr (n : Int) : List Char :=
  if n < 0 then '-' :: natRepr n.natAbs else natRepr n.toNat

mutual
/-- Modelled from the spec (section 4.1): the deterministic serializer
(`json-stringify-deterministic`): a fixed textual representation with no
insignificant whitespace, object fields emitted in the order of the field
list (the contract always sorts them first with `sortKeysRecursive`). -/
def stringify : Json → List Char
  | .null => "null".data
  | .bool true => "true".data
  | .bool false => "false".data
  | .num n => intRepr n
  | .str s => '"' :: (escList s.data ++ ['"'])
  | .arr es => '[' :: (stringifyElems es ++ [']'])
  | .obj fs => '{' :: (stringifyFields fs ++ ['}'])

/-- Serialize array elements separated by commas. -/
def stringifyElems : List Json → List Char
  | [] => []
  | [e] => stringify e
  | e :: es => stringify e ++ ',' :: stringifyElems es

/-- Serialize object members separated by commas. -/
def stringifyFields : List (String × Json) → List Char
  | [] => []
  | [(k, v)] => '"' :: (escList k.data ++ '"' :: ':' :: stringify v)
  | (k, v) :: fs =>
    ('"' :: (escList k.data ++ '"' :: ':' :: stringify v)) ++ ',' :: stringifyFields fs
end

/-- Insert a field into a key-sorted field list (insertion step of the
key sort). -/
def insertField : (String × Json) → List (String × Json) → List (String × Json)
  | p, [] => [p]
  | p, q :: fs => if strLtB p.1 q.1 then p :: q :: fs else q :: insertField p fs

/-- Sort a field list by key (insertion sort, lexicographic key order). -/
def sortFields : List (String × Json) → List (String × Json)
  | [] => []
  | p :: fs => insertField p (sortFields fs)

mutual
/-- Modelled from the spec (section 4.1): the `sort-keys-recursive`
package — recursively reorders all object fields by sorting their names
lexicographically; arrays preserve element order. -/
def sortKeysRecursive : Json → Json
  | .obj fs => .obj (sortFields (sortFieldVals fs))
  | .arr es => .arr (sortElems es)
  | .null => .null
  | .bool b => .bool b
  | .num n => .num n
  | .str s => .str s

/-- Recurse into the values of an object's fields. -/
def sortFieldVals : List (String × Json) → List (String × Json)
  | [] => []
  | (k, v) :: fs => (k, sortKeysRecursive v) :: sortFieldVals fs

/-- Recurse into the elements of an array. -/
def sortElems : List Json → List Json
  | [] => []
  | e :: es => sortKeysRecursive e :: sortElems es
end

/-- The canonical encoder used before every `putState`:
`stringify(sortKeysRecursive(record))` (controller.ts lines 52-54, 80-83,
118-121, 157-160). -/
def encode (j : Json) : List Char := stringify (sortKeysRecursive j)

/-- Boolean test for a decimal digit character. -/
def isDigitB (c : Char) : Bool := decide (48 ≤ c.toNat) && decide (c.toNat ≤ 57)

/-- Numeric value of a digit character. -/
def digitVal (c : Char) : Nat := c.toNat - 48

/-- Consume a maximal run of digits, accumulating their value. -/
def scanDigits : List Char → Nat → Nat × List Char
  | [], acc => (acc, [])
  | c :: cs, acc =>
    if isDigitB c then scanDigits cs (acc * 10 + digitVal c) else (acc, c :: cs)

/-- Un-escape one character after a backslash (`\u` sequences are not
produced by the encoder and are not modelled). -/
def unescChar (e : Char) : Option Char :=
  if e = '"' then some '"'
  else if e = '\\' then some '\\'
  else if e = '/' then some '/'
  else if e = 'n' then some '\n'
  else if e = 't' then some '\t'
  else if e = 'r' then some '\r'
  else if e = 'b' then some '\x08'
  else if e = 'f' then some '\x0c'
  else none

/-- Parse the body of a JSON string literal (after the opening quote) up to
and including the closing quote; returns the unescaped characters and the
remaining input. -/
def parseStringBody : List Char → Option (List Char × List Char)
  | [] => none
  | c :: cs =>
    if c.toNat = 34 then some ([], cs)
    else if c.toNat = 92 then
      match cs with
      | [] => none
      | e :: cs₁ =>
        match unescChar e with
        | none => none
        | some u =>
          match parseStringBody cs₁ with
          | none => none
          | some (s, r) => some (u :: s, r)
    else
      match parseStringBody cs with
      | none => none
      | some (s, r) => some (c :: s, r)

/-- Look a field up in a parsed object, first occurrence (parsed objects
never contain duplicate keys, see `parseMembers`). -/
def lookupField : List (String × Json) → String → Option Json
  | [], _ => none
  | (k', v) :: fs, k => if k' = k then some v else lookupField fs k

/-- JavaScript property assignment on an object's field list: replace the
value at the existing key position, or append the key. -/
def setField : List (String × Json) → String → Json → List (String × Json)
  | [], k, v => [(k, v)]
  | (k', v') :: fs, k, v =>
    if k' = k then (k', v) :: fs else (k', v') :: setField fs k v

mutual
/-- Modelled from the spec (section 4.3 `Read`, design note): `JSON.parse`,
the ordinary deserialization step, as a fuel-driven recursive-descent
parser over the JSON grammar fragment this contract produces (no
insignificant whitespace, integral numbers, no `\u` escapes).  The fuel
only bounds nesting; `parseJson?` supplies more fuel than any input can
consume. -/
def parseValue : Nat → List Char → Option (Json × List Char)
  | 0, _ => none
  | fuel + 1, cs =>
    match cs with
    | [] => none
    | c :: rest =>
      if c.toNat = 123 then
        match rest with
        | [] => none
        | c₁ :: rest₁ =>
          if c₁.toNat = 125 then some (.obj [], rest₁) else parseMembers fuel [] rest
      else if c.toNat = 91 then
        match rest with
        | [] => none
        | c₁ :: rest₁ =>
          if c₁.toNat = 93 then some (.arr [], rest₁) else parseElems fuel [] rest
      else if c.toNat = 34 then
        match parseStringBody rest with
        | some (s, r) => some (.str ⟨s⟩, r)
        | none => none
      else if c.toNat = 110 then
        match rest with
        | c₁ :: c₂ :: c₃ :: r =>
          if c₁.toNat = 117 && c₂.toNat = 108 && c₃.toNat = 108 then some (.null, r)
          else none
        | _ => none
      else if c.toNat = 116 then
        match rest with
        | c₁ :: c₂ :: c₃ :: r =>
          if c₁.toNat = 114 && c₂.toNat = 117 && c₃.toNat = 101 then some (.bool true, r)
          else none
        | _ => none
      else if c.toNat = 102 then
        match rest with
        | c₁ :: c₂ :: c₃ :: c₄ :: r =>
          if c₁.toNat = 97 && c₂.toNat = 108 && c₃.toNat = 115 && c₄.toNat = 101 then
            some (.bool false, r)
          else none
        | _ => none
      else if c.toNat = 45 then
        match rest with
        | [] => none
        | c₁ :: _ =>
          if isDigitB c₁ then
            match scanDigits rest 0 with
            | (v, r) => some (.num (-(v : Int)), r)
          else none
      else if isDigitB c then
        match scanDigits (c :: rest) 0 with
        | (v, r) => some (.num (v : Int), r)
      else none
termination_by structural fuel => fuel

/-- Parse the members of an object after its opening brace; duplicate keys
overwrite as in JavaScript (`setField`), keeping first-insertion order. -/
def parseMembers : Nat → List (String × Json) → List Char → Option (Json × List Char)
  | 0, _, _ => none
  | fuel + 1, acc, cs =>
    match cs with
    | [] => none
    | c :: rest =>
      if c.toNat = 34 then
        match parseStringBody rest with
        | none => none
        | some (k, r₁) =>
          match r₁ with
          | [] => none
          | c₁ :: r₂ =>
            if c₁.toNat = 58 then
              match parseValue fuel r₂ with
              | none => none
              | some (v, r₃) =>
                match r₃ with
                | [] => none
                | c₂ :: r₄ =>
                  if c₂.toNat = 44 then parseMembers fuel (setField acc ⟨k⟩ v) r₄
                  else if c₂.toNat = 125 then some (.obj (setField acc ⟨k⟩ v), r₄)
                  else none
            else none
      else none
termination_by structural fuel acc cs => fuel

/-- Parse the elements of an array after its opening bracket. -/
def parseElems : Nat → List Json → List Char → Option (Json × List Char)
  | 0, _, _ => none
  | fuel + 1, acc, cs =>
    match parseValue fuel cs with
    | none => none
    | some (v, r) =>
      match r with
      | [] => none
      | c :: r₁ =>
        if c.toNat = 44 then parseElems fuel (acc ++ [v]) r₁
        else if c.toNat = 93 then some (.arr (acc ++ [v]), r₁)
        else none
termination_by structural fuel acc cs => fuel
end

/-- The `JSON.parse` on a whole input: succeeds only if the input is fully
consumed. -/
def parseJson? (bs : List Char) : Option Json :=
  match parseValue (bs.length + 10) bs with
  | some (j, []) => some j
  | _ => none

/-- Modelled from the spec (section 4.2): the world state — the key/value
entries held by the collaborator ledger, kept in ascending key order (the
range scan's natural key order). -/
abbrev WorldState : Type := List (String × List Char)

/-- Raw lookup: the stored bytes for a key, or `none` when the key is
absent (the spec's explicit absent marker, section 4.2 `Get`). -/
def lookupState : WorldState → String → Option (List Char)
  | [], _ => none
  | (k', v) :: st, k => if k = k' then some v else lookupState st k

/-- Modelled from the spec (section 4.2): `ctx.stub.getState` — Fabric
returns an empty byte array for an absent key, which is how the controller
tests existence (`assetJSON.length`). -/
def getState (st : WorldState) (k : String) : List Char :=
  (lookupState st k).getD []

/-- Modelled from the spec (section 4.2): `ctx.stub.putState` — upsert,
keeping the entries in key order. -/
def putState : WorldState → String → List Char → WorldState
  | [], k, v => [(k, v)]
  | (k', v') :: st, k, v =>
    if strLtB k k' then (k, v) :: (k', v') :: st
    else if k = k' then (k, v) :: st
    else (k', v') :: putState st k v

/-- Modelled from the spec (section 4.2): `ctx.stub.deleteState` — remove a
key (no-op when absent). -/
def deleteState : WorldState → String → WorldState
  | [], _ => []
  | (k', v') :: st, k => if k = k' then st else (k', v') :: deleteState st k

/-- Modelled from the spec (section 4.2): `ctx.stub.getStateByRange("", "")`
— the empty/empty pair denotes all keys of the namespace, produced in the
store's natural key order. -/
def rangeScanAll (st : WorldState) : List (String × List Char) := st

/-- Well-formed world states: entries in strictly ascending key order (the
order the stub's range scan produces) and no empty values (every value ever
put by this contract is a serialized object, never empty). -/
def WFState (st : WorldState) : Prop :=
  List.Pairwise (fun p q => strLtB p.1 q.1 = true) st ∧ ∀ p ∈ st, p.2 ≠ []

instance (st : WorldState) : Decidable (WFState st) := by
  unfold WFState; infer_instance

instance {ε α : Type} [DecidableEq ε] [DecidableEq α] : DecidableEq (Except ε α) :=
  fun a b =>
    match a, b with
    | .ok x, .ok y =>
      if h : x = y then isTrue (h ▸ rfl)
      else isFalse (fun hh => h (Except.ok.inj hh))
    | .ok _, .error _ => isFalse (fun h => Except.noConfusion h)
    | .error _, .ok _ => isFalse (fun h => Except.noConfusion h)
    | .error x, .error y =>
      if h : x = y then isTrue (h ▸ rfl)
      else isFalse (fun hh => h (Except.error.inj hh))

/-- Read a property of a parsed JSON value, as JavaScript does: only
objects carry the contract's properties; on other values the result is
`undefined` (`none`). -/
def jsGet (j : Json) (k : String) : Option Json :=
  match j with
  | .obj fs => lookupField fs k
  | _ => none

mutual
/-- JavaScript string coercion (`String(x)`) of a parsed JSON value, used
where the controller interpolates or passes the destructured `ID` as a
state key. -/
def jsToString : Json → String
  | .null => "null"
  | .bool true => "true"
  | .bool false => "false"
  | .num n => ⟨intRepr n⟩
  | .str s => s
  | .obj _ => "[object Object]"
  | .arr es => jsJoinElems es

/-- JavaScript `Array.prototype.toString`: elements joined by commas,
`null` elements becoming empty strings. -/
def jsJoinElems : List Json → String
  | [] => ""
  | [.null] => ""
  | [e] => jsToString e
  | .null :: es => "," ++ jsJoinElems es
  | e :: es => jsToString e ++ "," ++ jsJoinElems es
end

/-- The state key the controller derives from the destructured `ID`
(JavaScript coerces a missing `ID` to the string `"undefined"` at the stub
boundary). -/
def keyOf : Option Json → String
  | none => "undefined"
  | some v => jsToString v

/-- The asset record (entity.ts, whose shape is fixed by the spec's data
model, section 3, and by every construction site in controller.ts). -/
structure Cars where
  ID : String
  Model : String
  Color : String
  Owner : String
  Year : Int
  VIN : String
  EngineType : String
  Mileage : Int
deriving DecidableEq

/-- A fully populated asset record as a JSON object, fields in the
construction order used by controller.ts (lines 24-45, 69-78, 107-116). -/
def Cars.toJson (a : Cars) : Json :=
  .obj [("ID", .str a.ID), ("Model", .str a.Model), ("Color", .str a.Color),
        ("Owner", .str a.Owner), ("Year", .num a.Year), ("VIN", .str a.VIN),
        ("EngineType", .str a.EngineType), ("Mileage", .num a.Mileage)]

/-- The same record with its fields in sorted key order — the shape every
canonically encoded asset decodes back to. -/
def sortedCarsFields (a : Cars) : List (String × Json) :=
  [("Color", .str a.Color), ("EngineType", .str a.EngineType), ("ID", .str a.ID),
   ("Mileage", .num a.Mileage), ("Model", .str a.Model), ("Owner", .str a.Owner),
   ("VIN", .str a.VIN), ("Year", .num a.Year)]

/-- Canonical encoding of a full asset record — exactly
`stringify(sortKeysRecursive(asset))` of controller.ts. -/
def encodeCars (a : Cars) : List Char := encode (Cars.toJson a)

/-- Replace the owner of a record, all other fields unchanged
(`asset.Owner = newOwner`, controller.ts line 155). -/
def setOwner (a : Cars) (o : String) : Cars :=
  ⟨a.ID, a.Model, a.Color, o, a.Year, a.VIN, a.EngineType, a.Mileage⟩

/-- Errors thrown by the controller: `AlreadyExists` and `NotFound` carry
the interpolated id of the thrown `Error` message; `typeError` is the
JavaScript `TypeError` thrown when destructuring `null`; `syntaxError` is
the `SyntaxError` of `JSON.parse` on non-JSON stored bytes. -/
inductive ContractErr where
  | alreadyExists (id : String) : ContractErr
  | notFound (id : String) : ContractErr
  | typeError : ContractErr
  | syntaxError : ContractErr
deriving DecidableEq

/-- The eight property names destructured by `CreateGarageCarAsset` and
`UpdateGarageCarAsset` (controller.ts lines 63-64, 99-100), in source
order. -/
def the8 : List String :=
  ["ID", "Model", "Color", "Owner", "Year", "VIN", "EngineType", "Mileage"]

/-- The object literal `{ID: ID, Model: Model, ...}` rebuilt from the
destructured properties; properties whose value is `undefined` are dropped
by the serializer (`JSON.stringify` semantics), modelled by `filterMap`. -/
def assetFields (j : Json) : List (String × Json) :=
  the8.filterMap fun k => (jsGet j k).map fun v => (k, v)

/-- The rebuilt record as a JSON object. -/
def assetObj (j : Json) : Json := .obj (assetFields j)

/-- The `AssetGarageCarExists` (controller.ts lines 137-143): true when the
stored bytes are non-empty. -/
def assetGarageCarExists (st : WorldState) (id : String) : Bool :=
  decide (0 < (getState st id).length)

/-- The `CreateGarageCarAsset` (controller.ts lines 62-84): destructure the
parsed input (throws `TypeError` on `null`), fail when the id already
exists, otherwise canonically encode the rebuilt record and put it.  The
argument is the already-parsed JSON value of the `json` string parameter. -/
def createGarageCarAsset (st : WorldState) (j : Json) : Except ContractErr WorldState :=
  if j = Json.null then .error .typeError
  else
    let key := keyOf (jsGet j "ID")
    if assetGarageCarExists st key then .error (.alreadyExists key)
    else .ok (putState st key (encode (assetObj j)))

/-- The `ReadGarageCarAsset` (controller.ts lines 88-94): return the stored
bytes verbatim; throw when they are empty (absent key). -/
def readGarageCarAsset (st : WorldState) (id : String) : Except ContractErr (List Char) :=
  let assetJSON := getState st id
  if assetJSON.length = 0 then .error (.notFound id) else .ok assetJSON

/-- The `UpdateGarageCarAsset` (controller.ts lines 98-122): destructure, fail
when the id does not exist, otherwise overwrite with the canonically
encoded rebuilt record. -/
def updateGarageCarAsset (st : WorldState) (j : Json) : Except ContractErr WorldState :=
  if j = Json.null then .error .typeError
  else
    let key := keyOf (jsGet j "ID")
    if assetGarageCarExists st key then .ok (putState st key (encode (assetObj j)))
    else .error (.notFound key)

/-- The `DeleteGarageCarAsset` (controller.ts lines 126-132): fail when the id
does not exist, otherwise delete the key. -/
def deleteGarageCarAsset (st : WorldState) (id : String) : Except ContractErr WorldState :=
  if assetGarageCarExists st id then .ok (deleteState st id)
  else .error (.notFound id)

/-- The `TransferGarageCarAsset` (controller.ts lines 147-162): read the stored
text through `ReadGarageCarAsset` (propagating its `NotFound`), parse it,
record the old owner, assign the new owner on the parsed value, re-encode
and put, and return the old owner.  The parsed value keeps any extra
properties it had (transfer does not destructure).  Assigning a property on
a primitive throws `TypeError` in strict mode; on an array the assignment
is not serialized by `JSON.stringify`. -/
def transferGarageCarAsset (st : WorldState) (id newOwner : String) :
    Except ContractErr (Option Json × WorldState) :=
  match readGarageCarAsset st id with
  | .error e => .error e
  | .ok bs =>
    match parseJson? bs with
    | none => .error .syntaxError
    | some j =>
      match j with
      | .obj fs =>
        .ok (lookupField fs "Owner",
             putState st id (encode (.obj (setField fs "Owner" (.str newOwner)))))
      | .arr es => .ok (none, putState st id (encode (.arr es)))
      | _ => .error .typeError

/-- One loop step of `GetAllGarageCars` (controller.ts lines 172-185):
parse the entry's bytes as a record, falling back to the raw text when
parsing throws. -/
def decodeEntry (bs : List Char) : Json :=
  match parseJson? bs with
  | some j => j
  | none => .str ⟨bs⟩

/-- The `while (!result.done)` accumulation loop of `GetAllGarageCars`:
push each decoded entry onto `allResults`. -/
def getAllLoop : List (String × List Char) → List Json → List Json
  | [], acc => acc
  | p :: rest, acc => getAllLoop rest (acc ++ [decodeEntry p.2])

/-- The `GetAllGarageCars` (controller.ts lines 167-187): full-namespace range
scan, decode each entry with per-entry recovery, return the aggregated
array (the final `JSON.stringify(allResults)` is its serialization and is
not modelled separately). -/
def getAllGarageCars (st : WorldState) : List Json :=
  getAllLoop (rangeScanAll st) []

/-- First seed asset of `InitGarageCarLedger` (controller.ts lines 25-34). -/
def seedCar1 : Cars :=
  ⟨"assetcar1", "Honda Accord", "Silver", "Ajith", 2023, "AB12CD345671",
   "4-cylinder Diesel", 10⟩

/-- Second seed asset of `InitGarageCarLedger` (controller.ts lines 35-44). -/
def seedCar2 : Cars :=
  ⟨"assetcar2", "Toyota Camry", "White", "Emma", 2019, "AB12CD345678",
   "6-cylinder Petrol", 11⟩

/-- The fixed seed set. -/
def seedAssets : List Cars := [seedCar1, seedCar2]

/-- The `InitGarageCarLedger` (controller.ts lines 23-58): put each seed asset
through the same canonical-encode-then-put path, with no existence check. -/
def initGarageCarLedger (st : WorldState) : WorldState :=
  seedAssets.foldl (fun s a => putState s a.ID (encodeCars a)) st

/-- A sample parsed input with one known and one unknown property, used to
witness the field-handling behavior of `Create` and `Update`. -/
def lenienceSample : Json := Json.obj [("ID", .str "x"), ("Bogus", .num 5)]

/-! ### Order lemmas for the key comparison -/

/-- Characters with equal code points are equal. -/
theorem charToNat_inj {a b : Char} (h : a.toNat = b.toNat) : a = b :=
  Char.ext (UInt32.toNat.inj h)

/-- Strings with equal character lists are equal. -/
theorem stringData_inj {a b : String} (h : a.data = b.data) : a = b := by
  cases a; cases b; exact congrArg String.mk h

/-- The key order is asymmetric. -/
theorem charListLtB_asym : ∀ x y, charListLtB x y = true → charListLtB y x = false
  | [], [], h => by simp [charListLtB] at h
  | [], _ :: _, _ => rfl
  | _ :: _, [], h => by simp [charListLtB] at h
  | a :: as, b :: bs, h => by
    simp only [charListLtB, Bool.or_eq_true, Bool.and_eq_true, decide_eq_true_eq] at h
    simp only [charListLtB, Bool.or_eq_false_iff, Bool.and_eq_false_iff,
      decide_eq_false_iff_not]
    rcases h with h | ⟨he, hr⟩
    · exact ⟨by omega, Or.inl (by omega)⟩
    · exact ⟨by omega, Or.inr (charListLtB_asym as bs hr)⟩

/-- The key order is transitive. -/
theorem charListLtB_trans :
    ∀ x y z, charListLtB x y = true → charListLtB y z = true → charListLtB x z = true
  | [], [], _, h1, _ => by simp [charListLtB] at h1
  | [], _ :: _, [], _, h2 => by simp [charListLtB] at h2
  | [], _ :: _, _ :: _, _, _ => rfl
  | _ :: _, [], _, h1, _ => by simp [charListLtB] at h1
  | _ :: _, _ :: _, [], _, h2 => by simp [charListLtB] at h2
  | a :: as, b :: bs, c :: cs, h1, h2 => by
    simp only [charListLtB, Bool.or_eq_true, Bool.and_eq_true, decide_eq_true_eq] at h1 h2
    simp only [charListLtB, Bool.or_eq_true, Bool.and_eq_true, decide_eq_true_eq]
    rcases h1 with h1 | ⟨he1, hr1⟩
    · rcases h2 with h2 | ⟨he2, hr2⟩
      · exact Or.inl (by omega)
      · exact Or.inl (by omega)
    · rcases h2 with h2 | ⟨he2, hr2⟩
      · exact Or.inl (by omega)
      · exact Or.inr ⟨by omega, charListLtB_trans as bs cs hr1 hr2⟩

/-- Two lists neither of which is below the other are equal. -/
theorem charListLtB_antisymm :
    ∀ x y, charListLtB x y = false → charListLtB y x = false → x = y
  | [], [], _, _ => rfl
  | [], _ :: _, h1, _ => by simp [charListLtB] at h1
  | _ :: _, [], _, h2 => by simp [charListLtB] at h2
  | a :: as, b :: bs, h1, h2 => by
    simp only [charListLtB, Bool.or_eq_false_iff, Bool.and_eq_false_iff,
      decide_eq_false_iff_not] at h1 h2
    have he : a = b := charToNat_inj (by omega)
    have hr : as = bs := by
      apply charListLtB_antisymm as bs
      · rcases h1.2 with h | h
        · exact absurd (by omega) h
        · exact h
      · rcases h2.2 with h | h
        · exact absurd (by omega) h
        · exact h
    rw [he, hr]

/-- The key order is irreflexive. -/
theorem charListLtB_irrefl : ∀ x, charListLtB x x = false
  | [] => rfl
  | a :: as => by
    simp [charListLtB, charListLtB_irrefl as]

/-- String-level irreflexivity. -/
theorem strLtB_irrefl (a : String) : strLtB a a = false :=
  charListLtB_irrefl a.data

/-- String-level asymmetry. -/
theorem strLtB_asym {a b : String} (h : strLtB a b = true) : strLtB b a = false :=
  charListLtB_asym a.data b.data h

/-- String-level transitivity. -/
theorem strLtB_trans {a b c : String} (h1 : strLtB a b = true) (h2 : strLtB b c = true) :
    strLtB a c = true :=
  charListLtB_trans a.data b.data c.data h1 h2

/-- String-level antisymmetry. -/
theorem strLtB_antisymm {a b : String} (h1 : strLtB a b = false)
    (h2 : strLtB b a = false) : a = b :=
  stringData_inj (charListLtB_antisymm a.data b.data h1 h2)

/-- Totality: two distinct keys compare strictly one way. -/
theorem strLtB_total {a b : String} (h1 : strLtB a b = false) (h2 : a ≠ b) :
    strLtB b a = true := by
  cases hb : strLtB b a
  · exact absurd (strLtB_antisymm h1 hb) h2
  · rfl

/-! ### World-state lemmas -/

/-- The `putState` stores the value under the key. -/
theorem lookupState_putState_self :
    ∀ (st : WorldState) (k : String) (v : List Char),
      lookupState (putState st k v) k = some v
  | [], k, v => by simp [putState, lookupState]
  | (k', v') :: st, k, v => by
    by_cases h1 : strLtB k k' = true
    · simp [putState, h1, lookupState]
    · by_cases h2 : k = k'
      · subst h2
        simp [putState, strLtB_irrefl, lookupState]
      · simp [putState, h1, h2, lookupState, lookupState_putState_self st k v]

/-- The `putState` leaves every other key unchanged. -/
theorem lookupState_putState_ne :
    ∀ (st : WorldState) (k : String) (v : List Char) (j : String), j ≠ k →
      lookupState (putState st k v) j = lookupState st j
  | [], k, v, j, hj => by simp [putState, lookupState, hj]
  | (k', v') :: st, k, v, j, hj => by
    by_cases h1 : strLtB k k' = true
    · simp [putState, h1, lookupState, hj]
    · by_cases h2 : k = k'
      · subst h2
        simp [putState, strLtB_irrefl, lookupState, hj]
      · simp [putState, h1, h2, lookupState,
          lookupState_putState_ne st k v j hj]

/-- Every entry of `putState st k v` is the new entry or an old one. -/
theorem mem_putState :
    ∀ (st : WorldState) (k : String) (v : List Char) (p : String × List Char),
      p ∈ putState st k v → p = (k, v) ∨ p ∈ st
  | [], k, v, p, hp => by simpa [putState] using hp
  | (k', v') :: st, k, v, p, hp => by
    by_cases h1 : strLtB k k' = true
    · simp only [putState, if_pos h1, List.mem_cons] at hp
      rcases hp with h | h | h
      · exact Or.inl h
      · exact Or.inr (by simp [h])
      · exact Or.inr (by simp [h])
    · by_cases h2 : k = k'
      · simp only [putState, if_neg h1, if_pos h2, List.mem_cons] at hp
        rcases hp with h | h
        · exact Or.inl h
        · exact Or.inr (by simp [h])
      · simp only [putState, if_neg h1, if_neg h2, List.mem_cons] at hp
        rcases hp with h | h
        · exact Or.inr (by simp [h])
        · rcases mem_putState st k v p h with h' | h'
          · exact Or.inl h'
          · exact Or.inr (by simp [h'])

/-- The `putState` preserves the strict key ordering of the state. -/
theorem putState_pairwise :
    ∀ (st : WorldState) (k : String) (v : List Char),
      List.Pairwise (fun p q => strLtB p.1 q.1 = true) st →
      List.Pairwise (fun p q => strLtB p.1 q.1 = true) (putState st k v)
  | [], k, v, _ => by simp [putState]
  | (k', v') :: st, k, v, h => by
    rw [List.pairwise_cons] at h
    obtain ⟨hhd, htl⟩ := h
    by_cases h1 : strLtB k k' = true
    · rw [show putState ((k', v') :: st) k v = (k, v) :: (k', v') :: st from by
        simp [putState, h1]]
      rw [List.pairwise_cons]
      constructor
      · intro q hq
        rcases List.mem_cons.mp hq with hq' | hq'
        · rw [hq']
          exact h1
        · exact strLtB_trans h1 (hhd q hq')
      · exact List.Pairwise.cons hhd htl
    · by_cases h2 : k = k'
      · subst h2
        rw [show putState ((k, v') :: st) k v = (k, v) :: st from by
          simp [putState, strLtB_irrefl]]
        rw [List.pairwise_cons]
        exact ⟨hhd, htl⟩
      · rw [show putState ((k', v') :: st) k v = (k', v') :: putState st k v from by
          simp [putState, h1, h2]]
        rw [List.pairwise_cons]
        constructor
        · intro q hq
          rcases mem_putState st k v q hq with hq' | hq'
          · rw [hq']
            exact strLtB_total (by simpa using h1) h2
          · exact hhd q hq'
        · exact putState_pairwise st k v htl

/-- The `putState` with a non-empty value preserves well-formedness. -/
theorem wfState_putState {st : WorldState} {k : String} {v : List Char}
    (h : WFState st) (hv : v ≠ []) : WFState (putState st k v) := by
  refine ⟨putState_pairwise st k v h.1, ?_⟩
  intro p hp
  rcases mem_putState st k v p hp with h' | h'
  · rw [h']; exact hv
  · exact h.2 p h'

/-- A successful lookup comes from an entry of the state. -/
theorem lookupState_mem :
    ∀ (st : WorldState) (k : String) (v : List Char),
      lookupState st k = some v → (k, v) ∈ st
  | [], k, v, h => by simp [lookupState] at h
  | (k', v') :: st, k, v, h => by
    by_cases h2 : k = k'
    · subst h2
      simp only [lookupState, if_pos rfl] at h
      obtain rfl : v' = v := Option.some.inj h
      exact List.mem_cons_self _ _
    · simp only [lookupState, if_neg h2] at h
      exact List.mem_cons_of_mem _ (lookupState_mem st k v h)

/-! ### Key-sort lemmas (canonicalization) -/

/-- Inserting a field produces a permutation of consing it. -/
theorem insertField_perm (p : String × Json) :
    ∀ l, List.Perm (insertField p l) (p :: l)
  | [] => List.Perm.refl _
  | q :: l => by
    by_cases h : strLtB p.1 q.1 = true
    · rw [show insertField p (q :: l) = p :: q :: l from by simp [insertField, h]]
    · rw [show insertField p (q :: l) = q :: insertField p l from by simp [insertField, h]]
      exact ((insertField_perm p l).cons q).trans (List.Perm.swap p q l)

/-- The key sort permutes its input. -/
theorem sortFields_perm : ∀ l, List.Perm (sortFields l) l
  | [] => List.Perm.refl _
  | p :: l =>
    (insertField_perm p (sortFields l)).trans ((sortFields_perm l).cons p)

/-- Membership after insertion. -/
theorem mem_insertField {p q : String × Json} {l : List (String × Json)}
    (h : q ∈ insertField p l) : q = p ∨ q ∈ l := by
  have := (insertField_perm p l).mem_iff.mp h
  simpa using this

/-- Insertion preserves weak sortedness by key. -/
theorem insertField_pairwise (p : String × Json) :
    ∀ l, List.Pairwise (fun x y => strLtB y.1 x.1 = false) l →
      List.Pairwise (fun x y => strLtB y.1 x.1 = false) (insertField p l)
  | [], _ => by simp [insertField]
  | q :: l, h => by
    rw [List.pairwise_cons] at h
    obtain ⟨hq, hl⟩ := h
    by_cases hpq : strLtB p.1 q.1 = true
    · rw [show insertField p (q :: l) = p :: q :: l from by simp [insertField, hpq]]
      rw [List.pairwise_cons]
      constructor
      · intro x hx
        rcases List.mem_cons.mp hx with rfl | hx
        · exact strLtB_asym hpq
        · cases hxp : strLtB x.1 p.1
          · rfl
          · exact absurd (strLtB_trans hxp hpq) (by simp [hq x hx])
      · exact List.Pairwise.cons hq hl
    · rw [show insertField p (q :: l) = q :: insertField p l from by simp [insertField, hpq]]
      rw [List.pairwise_cons]
      constructor
      · intro x hx
        rcases mem_insertField hx with rfl | hx
        · simpa using hpq
        · exact hq x hx
      · exact insertField_pairwise p l hl

/-- The key sort produces a weakly sorted list. -/
theorem sortFields_sorted :
    ∀ l, List.Pairwise (fun x y => strLtB y.1 x.1 = false) (sortFields l)
  | [] => by simp [sortFields]
  | p :: l => insertField_pairwise p (sortFields l) (sortFields_sorted l)

/-- With distinct keys, weak sortedness upgrades to strict sortedness. -/
theorem pairwiseLt_of_pairwiseLe :
    ∀ {l : List (String × Json)},
      List.Pairwise (fun x y => strLtB y.1 x.1 = false) l →
      (l.map Prod.fst).Nodup →
      List.Pairwise (fun x y => strLtB x.1 y.1 = true) l := by
  intro l
  induction l with
  | nil => intro _ _; simp
  | cons p l ih =>
    intro hle hnd
    rw [List.pairwise_cons] at hle ⊢
    rw [List.map_cons, List.nodup_cons] at hnd
    refine ⟨?_, ih hle.2 hnd.2⟩
    intro q hq
    refine strLtB_total (hle.1 q hq) ?_
    intro hkq
    exact hnd.1 (hkq ▸ List.mem_map_of_mem Prod.fst hq)

/-- Sorting two permutations of the same duplicate-free field list gives
identical results. -/
theorem sortFields_eq_of_perm {l l' : List (String × Json)} (hp : List.Perm l l')
    (hnd : (l.map Prod.fst).Nodup) : sortFields l = sortFields l' := by
  have hperm : List.Perm (sortFields l) (sortFields l') :=
    (sortFields_perm l).trans (hp.trans (sortFields_perm l').symm)
  have hnd1 : ((sortFields l).map Prod.fst).Nodup :=
    (((sortFields_perm l).map Prod.fst).nodup_iff).mpr hnd
  have hnd' : (l'.map Prod.fst).Nodup := ((hp.map Prod.fst).nodup_iff).mp hnd
  have hnd2 : ((sortFields l').map Prod.fst).Nodup :=
    (((sortFields_perm l').map Prod.fst).nodup_iff).mpr hnd'
  have hs1 := pairwiseLt_of_pairwiseLe (sortFields_sorted l) hnd1
  have hs2 := pairwiseLt_of_pairwiseLe (sortFields_sorted l') hnd2
  haveI : IsAntisymm (String × Json) (fun x y => strLtB x.1 y.1 = true) :=
    ⟨fun a b h1 h2 => absurd h2 (by simp [strLtB_asym h1])⟩
  exact List.eq_of_perm_of_sorted hperm hs1 hs2

/-- The `sortFieldVals` is a map over the field list. -/
theorem sortFieldVals_eq_map :
    ∀ l, sortFieldVals l = l.map (fun p => (p.1, sortKeysRecursive p.2))
  | [] => rfl
  | (k, v) :: l => by simp [sortFieldVals, sortFieldVals_eq_map l]

/-! ### Decimal-digit lemmas -/

/-- The `Nat.digitChar` of a digit is a digit character with the right value. -/
theorem digitChar_isDigit {d : Nat} (hd : d < 10) :
    isDigitB (Nat.digitChar d) = true ∧ digitVal (Nat.digitChar d) = d := by
  interval_cases d <;> exact ⟨rfl, rfl⟩

/-- Every character of a decimal representation is a digit. -/
theorem natReprAux_digits :
    ∀ (fuel n : Nat) (c : Char), c ∈ natReprAux fuel n → isDigitB c = true
  | 0, n, c, hc => by simp [natReprAux] at hc
  | fuel + 1, n, c, hc => by
    by_cases h : n < 10
    · rw [show natReprAux (fuel + 1) n = [Nat.digitChar n] from by
        simp [natReprAux, h]] at hc
      rw [List.mem_singleton] at hc
      subst hc
      exact (digitChar_isDigit h).1
    · rw [show natReprAux (fuel + 1) n =
          natReprAux fuel (n / 10) ++ [Nat.digitChar (n % 10)] from by
        simp [natReprAux, h]] at hc
      rcases List.mem_append.mp hc with h' | h'
      · exact natReprAux_digits fuel (n / 10) c h'
      · rw [List.mem_singleton] at h'
        subst h'
        exact (digitChar_isDigit (Nat.mod_lt n (by omega))).1

/-- Decimal representations are never empty. -/
theorem natReprAux_ne_nil (fuel n : Nat) : natReprAux (fuel + 1) n ≠ [] := by
  by_cases h : n < 10
  · simp [natReprAux, h]
  · simp [natReprAux, h]

/-- A decimal representation starts with a digit character. -/
theorem natRepr_head (n : Nat) : ∃ d ds, natRepr n = d :: ds ∧ isDigitB d = true := by
  obtain ⟨d, ds, h⟩ := List.exists_cons_of_ne_nil (natReprAux_ne_nil n n)
  refine ⟨d, ds, h, ?_⟩
  exact natReprAux_digits (n + 1) n d (by rw [h]; exact List.mem_cons_self d ds)

/-- Folding the digit values of a decimal representation recovers the
number. -/
theorem foldl_natReprAux :
    ∀ (fuel n acc : Nat), n < fuel →
      List.foldl (fun a c => a * 10 + digitVal c) acc (natReprAux fuel n) =
        acc * 10 ^ (natReprAux fuel n).length + n
  | 0, n, _, h => absurd h (Nat.not_lt_zero n)
  | fuel + 1, n, acc, h => by
    by_cases h10 : n < 10
    · rw [show natReprAux (fuel + 1) n = [Nat.digitChar n] from by
        simp [natReprAux, h10]]
      simp [List.foldl, (digitChar_isDigit h10).2]
    · have hdiv : n / 10 < fuel := by omega
      rw [show natReprAux (fuel + 1) n =
          natReprAux fuel (n / 10) ++ [Nat.digitChar (n % 10)] from by
        simp [natReprAux, h10]]
      rw [List.foldl_append]
      rw [foldl_natReprAux fuel (n / 10) acc hdiv]
      simp only [List.foldl, (digitChar_isDigit (Nat.mod_lt n (by omega))).2,
        List.length_append, List.length_cons, List.length_nil]
      have hp : (10 : Nat) ^ ((natReprAux fuel (n / 10)).length + (0 + 1)) =
          10 ^ (natReprAux fuel (n / 10)).length * 10 := pow_succ 10 _
      rw [hp, ← mul_assoc]
      omega

/-- Scanning a block of digits accumulates their value. -/
theorem scanDigits_append :
    ∀ (ds rest : List Char) (acc : Nat), (∀ c ∈ ds, isDigitB c = true) →
      scanDigits (ds ++ rest) acc =
        scanDigits rest (List.foldl (fun a c => a * 10 + digitVal c) acc ds)
  | [], _, _, _ => rfl
  | c :: ds, rest, acc, h => by
    have hc := h c (List.mem_cons_self c ds)
    rw [List.cons_append]
    rw [show scanDigits (c :: (ds ++ rest)) acc =
        scanDigits (ds ++ rest) (acc * 10 + digitVal c) from by
      simp [scanDigits, hc]]
    rw [scanDigits_append ds rest _ (fun x hx => h x (List.mem_cons_of_mem c hx))]
    rfl

/-- Scanning stops at a non-digit. -/
theorem scanDigits_stop (c : Char) (r : List Char) (acc : Nat)
    (h : isDigitB c = false) : scanDigits (c :: r) acc = (acc, c :: r) := by
  simp [scanDigits, h]

/-- Scanning a decimal representation recovers the number. -/
theorem scanDigits_natRepr (n : Nat) (c : Char) (r : List Char)
    (h : isDigitB c = false) : scanDigits (natRepr n ++ c :: r) 0 = (n, c :: r) := by
  show scanDigits (natReprAux (n + 1) n ++ c :: r) 0 = (n, c :: r)
  rw [scanDigits_append (natReprAux (n + 1) n) (c :: r) 0
    (fun x hx => natReprAux_digits (n + 1) n x hx)]
  rw [scanDigits_stop c r _ h]
  rw [foldl_natReprAux (n + 1) n 0 (by omega)]
  simp

/-! ### String-literal round trip -/

/-- Parsing an escaped string body recovers the original characters. -/
theorem parseStringBody_escList :
    ∀ (l r : List Char), parseStringBody (escList l ++ '"' :: r) = some (l, r)
  | [], r => by
    rw [show escList [] = ([] : List Char) from rfl, List.nil_append,
      parseStringBody.eq_def]
    simp
  | c :: l, r => by
    have ih := parseStringBody_escList l r
    rw [show escList (c :: l) = escChar c ++ escList l from rfl, List.append_assoc]
    by_cases h1 : c = '"'
    · subst h1
      rw [show escChar '"' = ['\\', '"'] from rfl]
      rw [List.cons_append, List.cons_append, List.nil_append, parseStringBody.eq_def]
      simp [unescChar, ih]
    · by_cases h2 : c = '\\'
      · subst h2
        rw [show escChar '\\' = ['\\', '\\'] from rfl]
        rw [List.cons_append, List.cons_append, List.nil_append, parseStringBody.eq_def]
        simp [unescChar, ih]
      · by_cases h3 : c = '\n'
        · subst h3
          rw [show escChar '\n' = ['\\', 'n'] from rfl]
          rw [List.cons_append, List.cons_append, List.nil_append, parseStringBody.eq_def]
          simp [unescChar, ih]
        · by_cases h4 : c = '\t'
          · subst h4
            rw [show escChar '\t' = ['\\', 't'] from rfl]
            rw [List.cons_append, List.cons_append, List.nil_append,
              parseStringBody.eq_def]
            simp [unescChar, ih]
          · by_cases h5 : c = '\r'
            · subst h5
              rw [show escChar '\r' = ['\\', 'r'] from rfl]
              rw [List.cons_append, List.cons_append, List.nil_append,
                parseStringBody.eq_def]
              simp [unescChar, ih]
            · by_cases h6 : c = '\x08'
              · subst h6
                rw [show escChar '\x08' = ['\\', 'b'] from rfl]
                rw [List.cons_append, List.cons_append, List.nil_append,
                  parseStringBody.eq_def]
                simp [unescChar, ih]
              · by_cases h7 : c = '\x0c'
                · subst h7
                  rw [show escChar '\x0c' = ['\\', 'f'] from rfl]
                  rw [List.cons_append, List.cons_append, List.nil_append,
                    parseStringBody.eq_def]
                  simp [unescChar, ih]
                · have h34 : c.toNat ≠ 34 := fun h => h1 (charToNat_inj h)
                  have h92 : c.toNat ≠ 92 := fun h => h2 (charToNat_inj h)
                  rw [show escChar c = [c] from by
                    simp [escChar, h1, h2, h3, h4, h5, h6, h7]]
                  rw [List.cons_append, List.nil_append, parseStringBody.eq_def]
                  simp [h34, h92, ih]

/-- Parsing a serialized string value. -/
theorem parseValue_str (g : Nat) (s : String) (r : List Char) :
    parseValue (g + 1) ('"' :: (escList s.data ++ '"' :: r)) = some (Json.str s, r) := by
  rw [parseValue.eq_def]
  simp [parseStringBody_escList]

/-- Parsing a serialized integer value up to a non-digit terminator. -/
theorem parseValue_num (g : Nat) (n : Int) (c : Char) (r : List Char)
    (hc : isDigitB c = false) :
    parseValue (g + 1) (intRepr n ++ c :: r) = some (Json.num n, c :: r) := by
  by_cases hn : n < 0
  · rw [show intRepr n = '-' :: natRepr n.natAbs from by simp [intRepr, hn]]
    obtain ⟨d, ds, hds, hd⟩ := natRepr_head n.natAbs
    have hscan := scanDigits_natRepr n.natAbs c r hc
    rw [hds] at hscan
    rw [List.cons_append] at hscan
    rw [List.cons_append, hds, List.cons_append]
    rw [parseValue.eq_def]
    simp [hd, hscan]
    rw [abs_of_neg hn, neg_neg]
  · rw [show intRepr n = natRepr n.toNat from by simp [intRepr, hn]]
    obtain ⟨d, ds, hds, hd⟩ := natRepr_head n.toNat
    have hscan := scanDigits_natRepr n.toNat c r hc
    rw [hds] at hscan
    rw [List.cons_append] at hscan
    rw [hds, List.cons_append]
    have hdig : 48 ≤ d.toNat ∧ d.toNat ≤ 57 := by
      have hh := hd
      simp only [isDigitB, Bool.and_eq_true, decide_eq_true_eq] at hh
      exact hh
    rw [parseValue.eq_def]
    have hpos : ((n.toNat : Nat) : Int) = n := by omega
    simp [hd, hscan, hpos, show d.toNat ≠ 123 from by omega,
      show d.toNat ≠ 91 from by omega, show d.toNat ≠ 34 from by omega,
      show d.toNat ≠ 110 from by omega, show d.toNat ≠ 116 from by omega,
      show d.toNat ≠ 102 from by omega, show d.toNat ≠ 45 from by omega]

/-- Number followed by a comma. -/
theorem parseValue_num_comma (g : Nat) (n : Int) (r : List Char) :
    parseValue (g + 1) (intRepr n ++ ',' :: r) = some (Json.num n, ',' :: r) :=
  parseValue_num g n ',' r rfl

/-- Number followed by a closing brace. -/
theorem parseValue_num_brace (g : Nat) (n : Int) (r : List Char) :
    parseValue (g + 1) (intRepr n ++ '}' :: r) = some (Json.num n, '}' :: r) :=
  parseValue_num g n '}' r rfl

/-- Entering a non-empty object literal. -/
theorem parseValue_obj_quote (F : Nat) (rest : List Char) :
    parseValue (F + 1) ('{' :: '"' :: rest) = parseMembers F [] ('"' :: rest) := by
  rw [parseValue.eq_def]
  simp

/-- One member step: consume the quoted key and the colon, then continue
with the member's value. -/
theorem parseMembers_step (F : Nat) (acc : List (String × Json)) (k : String)
    (B : List Char) :
    parseMembers (F + 1) acc ('"' :: (escList k.data ++ '"' :: ':' :: B)) =
      (match parseValue F B with
       | none => none
       | some (v, r₃) =>
         match r₃ with
         | [] => none
         | c₂ :: r₄ =>
           if c₂.toNat = 44 then parseMembers F (setField acc k v) r₄
           else if c₂.toNat = 125 then some (.obj (setField acc k v), r₄)
           else none) := by
  rw [parseMembers.eq_def]
  simp [parseStringBody_escList]

/-- A string-valued member followed by a comma. -/
theorem member_str_comma (F : Nat) (acc : List (String × Json)) (k s : String)
    (rest : List Char) :
    parseMembers (F + 1 + 1) acc
      ('"' :: (escList k.data ++ '"' :: ':' :: '"' ::
        (escList s.data ++ '"' :: ',' :: rest))) =
      parseMembers (F + 1) (setField acc k (.str s)) rest := by
  rw [parseMembers_step, parseValue_str]
  simp

/-- A number-valued member followed by a comma. -/
theorem member_num_comma (F : Nat) (acc : List (String × Json)) (k : String)
    (n : Int) (rest : List Char) :
    parseMembers (F + 1 + 1) acc
      ('"' :: (escList k.data ++ '"' :: ':' :: (intRepr n ++ ',' :: rest))) =
      parseMembers (F + 1) (setField acc k (.num n)) rest := by
  rw [parseMembers_step, parseValue_num_comma]
  simp

/-- A final number-valued member followed by the closing brace. -/
theorem member_num_brace (F : Nat) (acc : List (String × Json)) (k : String)
    (n : Int) (rest : List Char) :
    parseMembers (F + 1 + 1) acc
      ('"' :: (escList k.data ++ '"' :: ':' :: (intRepr n ++ '}' :: rest))) =
      some (.obj (setField acc k (.num n)), rest) := by
  rw [parseMembers_step, parseValue_num_brace]
  simp

/-- The canonical encoding of an asset record parses back to exactly the
sorted record object: the encoder/parser round trip. -/
theorem parse_encodeCars (g : Nat) (a : Cars) :
    parseValue (g + 10) (encodeCars a) = some (Json.obj (sortedCarsFields a), []) := by
  have hexp : encodeCars a =
      '{' ::
      ((('"' :: (escList "Color".data ++ '"' :: ':' ::
          ('"' :: (escList a.Color.data ++ ['"'])))) ++ ',' ::
        (('"' :: (escList "EngineType".data ++ '"' :: ':' ::
          ('"' :: (escList a.EngineType.data ++ ['"'])))) ++ ',' ::
        (('"' :: (escList "ID".data ++ '"' :: ':' ::
          ('"' :: (escList a.ID.data ++ ['"'])))) ++ ',' ::
        (('"' :: (escList "Mileage".data ++ '"' :: ':' :: intRepr a.Mileage)) ++ ',' ::
        (('"' :: (escList "Model".data ++ '"' :: ':' ::
          ('"' :: (escList a.Model.data ++ ['"'])))) ++ ',' ::
        (('"' :: (escList "Owner".data ++ '"' :: ':' ::
          ('"' :: (escList a.Owner.data ++ ['"'])))) ++ ',' ::
        (('"' :: (escList "VIN".data ++ '"' :: ':' ::
          ('"' :: (escList a.VIN.data ++ ['"'])))) ++ ',' ::
        ('"' :: (escList "Year".data ++ '"' :: ':' :: intRepr a.Year))))))))) ++ ['}']) := by
    rw [show encodeCars a = stringify (Json.obj (sortedCarsFields a)) from rfl]
    simp [stringify, stringifyFields, sortedCarsFields]
  rw [show g + 10 = g + 1 + 1 + 1 + 1 + 1 + 1 + 1 + 1 + 1 + 1 from rfl, hexp]
  simp only [List.cons_append, List.append_assoc, List.nil_append]
  rw [parseValue_obj_quote]
  rw [member_str_comma]
  rw [member_str_comma]
  rw [member_str_comma]
  rw [member_num_comma]
  rw [member_str_comma]
  rw [member_str_comma]
  rw [member_str_comma]
  rw [member_num_brace]
  simp [setField, sortedCarsFields]

/-- The `JSON.parse` of a canonically encoded asset record. -/
theorem parseJson_encodeCars (a : Cars) :
    parseJson? (encodeCars a) = some (Json.obj (sortedCarsFields a)) := by
  simp [parseJson?, parse_encodeCars]

/-! ### Operation-level helper lemmas -/

/-- A canonical encoding is never the empty byte sequence. -/
theorem encodeCars_ne_nil (a : Cars) : encodeCars a ≠ [] := by
  intro h
  have hp := parseJson_encodeCars a
  rw [h, show (parseJson? [] : Option Json) = none from by decide] at hp
  exact Option.noConfusion hp

/-- A full record is never the JSON `null`. -/
theorem toJson_ne_null (a : Cars) : Cars.toJson a ≠ Json.null := by
  simp [Cars.toJson]

/-- The state key derived from a full record is its `ID`. -/
theorem keyOf_toJson (a : Cars) : keyOf (jsGet (Cars.toJson a) "ID") = a.ID := by
  rw [show jsGet (Cars.toJson a) "ID" = some (.str a.ID) from by
    simp [Cars.toJson, jsGet, lookupField]]
  simp [keyOf, jsToString]

/-- Rebuilding a full record from its own destructuring is the identity. -/
theorem assetObj_toJson (a : Cars) : assetObj (Cars.toJson a) = Cars.toJson a := by
  simp [assetObj, assetFields, the8, jsGet, Cars.toJson, lookupField]

/-- Encoding an already-sorted record object gives the canonical asset
encoding. -/
theorem encode_sortedCars (b : Cars) :
    encode (Json.obj (sortedCarsFields b)) = encodeCars b := by
  rw [show encode (Json.obj (sortedCarsFields b)) =
      stringify (sortKeysRecursive (Json.obj (sortedCarsFields b))) from rfl]
  rw [show sortKeysRecursive (Json.obj (sortedCarsFields b)) =
      Json.obj (sortedCarsFields b) from rfl]
  rw [show encodeCars b = stringify (Json.obj (sortedCarsFields b)) from rfl]

/-- The `Create` on a full record, unfolded. -/
theorem createGarageCarAsset_eq (st : WorldState) (a : Cars) :
    createGarageCarAsset st (Cars.toJson a) =
      if assetGarageCarExists st a.ID then Except.error (.alreadyExists a.ID)
      else Except.ok (putState st a.ID (encodeCars a)) := by
  simp only [createGarageCarAsset, keyOf_toJson]
  rw [if_neg (toJson_ne_null a), assetObj_toJson]
  rw [show encode (Cars.toJson a) = encodeCars a from rfl]

/-- The `Update` on a full record, unfolded. -/
theorem updateGarageCarAsset_eq (st : WorldState) (a : Cars) :
    updateGarageCarAsset st (Cars.toJson a) =
      if assetGarageCarExists st a.ID then
        Except.ok (putState st a.ID (encodeCars a))
      else Except.error (.notFound a.ID) := by
  simp only [updateGarageCarAsset, keyOf_toJson]
  rw [if_neg (toJson_ne_null a), assetObj_toJson]
  rw [show encode (Cars.toJson a) = encodeCars a from rfl]

/-- The `getState` of a present key. -/
theorem getState_lookup_some {st : WorldState} {id : String} {bs : List Char}
    (h : lookupState st id = some bs) : getState st id = bs := by
  simp [getState, h]

/-- The `getState` of an absent key is the empty byte array. -/
theorem getState_lookup_none {st : WorldState} {id : String}
    (h : lookupState st id = none) : getState st id = [] := by
  simp [getState, h]

/-- A key holding non-empty bytes exists. -/
theorem exists_of_lookup {st : WorldState} {id : String} {bs : List Char}
    (h : lookupState st id = some bs) (hb : bs ≠ []) :
    assetGarageCarExists st id = true := by
  simp [assetGarageCarExists, getState, h]
  exact List.length_pos.mpr hb

/-- An absent key does not exist. -/
theorem not_exists_of_lookup_none {st : WorldState} {id : String}
    (h : lookupState st id = none) : assetGarageCarExists st id = false := by
  simp [assetGarageCarExists, getState, h]

/-- A non-existing key stores the empty byte array. -/
theorem getState_of_not_exists {st : WorldState} {id : String}
    (h : assetGarageCarExists st id = false) : getState st id = [] := by
  have h' : ¬ (0 < (getState st id).length) := by
    intro hlt
    rw [show assetGarageCarExists st id = true from by
      simp [assetGarageCarExists, hlt]] at h
    exact Bool.noConfusion h
  exact List.length_eq_zero.mp (by omega)

/-- The `Transfer` on a state storing a canonically encoded record, unfolded. -/
theorem transferGarageCarAsset_eq (st : WorldState) (id newOwner : String) (a : Cars)
    (h : lookupState st id = some (encodeCars a)) :
    transferGarageCarAsset st id newOwner =
      Except.ok (some (.str a.Owner),
        putState st id (encodeCars (setOwner a newOwner))) := by
  have hne : (encodeCars a).length ≠ 0 := by
    simpa [List.length_eq_zero] using encodeCars_ne_nil a
  simp [transferGarageCarAsset, readGarageCarAsset, getState, h, hne,
    parseJson_encodeCars,
    show lookupField (sortedCarsFields a) "Owner" = some (.str a.Owner) from by
      simp [sortedCarsFields, lookupField],
    show setField (sortedCarsFields a) "Owner" (.str newOwner) =
        sortedCarsFields (setOwner a newOwner) from by
      simp [sortedCarsFields, setField, setOwner],
    encode_sortedCars (setOwner a newOwner)]

/-- The accumulation loop of `GetAllGarageCars` is a map over the scanned
entries. -/
theorem getAllLoop_eq :
    ∀ (st : List (String × List Char)) (acc : List Json),
      getAllLoop st acc = acc ++ st.map (fun p => decodeEntry p.2)
  | [], acc => by simp [getAllLoop]
  | p :: st, acc => by
    rw [show getAllLoop (p :: st) acc = getAllLoop st (acc ++ [decodeEntry p.2]) from rfl]
    rw [getAllLoop_eq st]
    simp

/-- The `GetAllGarageCars` decodes every scanned entry in order. -/
theorem getAllGarageCars_eq (st : WorldState) :
    getAllGarageCars st = st.map (fun p => decodeEntry p.2) := by
  rw [show getAllGarageCars st = getAllLoop st [] from rfl]
  rw [getAllLoop_eq]
  simp

/-! ### Claim theorems -/

/-- C1: For every pair of in-memory asset records with identical field
names and values but differing field insertion/construction order, the
canonical encoding used before every `putState` (sort-keys-recursive
followed by deterministic stringify) produces byte-identical output.
Records are JSON objects; identical fields in differing order means the
two field lists are permutations of one another, and JavaScript objects
never carry duplicate keys (the `Nodup` hypothesis). -/
theorem claim_encode_canonical (l l' : List (String × Json))
    (hperm : List.Perm l l') (hnd : (l.map Prod.fst).Nodup) :
    encode (Json.obj l) = encode (Json.obj l') := by
  rw [show encode (Json.obj l) =
      stringify (Json.obj (sortFields (sortFieldVals l))) from rfl]
  rw [show encode (Json.obj l') =
      stringify (Json.obj (sortFields (sortFieldVals l'))) from rfl]
  have hsort : sortFields (sortFieldVals l) = sortFields (sortFieldVals l') := by
    rw [sortFieldVals_eq_map, sortFieldVals_eq_map]
    apply sortFields_eq_of_perm (hperm.map _)
    rw [List.map_map]
    exact hnd
  rw [hsort]

/-- Witness for C1: the seed record's construction order versus its sorted
order. -/
theorem claim_encode_canonical_witness :
    encode (Json.obj [("ID", Json.str "assetcar1"), ("Model", Json.str "Honda Accord"),
      ("Color", Json.str "Silver"), ("Owner", Json.str "Ajith"),
      ("Year", Json.num 2023), ("VIN", Json.str "AB12CD345671"),
      ("EngineType", Json.str "4-cylinder Diesel"), ("Mileage", Json.num 10)]) =
    encode (Json.obj [("Color", Json.str "Silver"),
      ("EngineType", Json.str "4-cylinder Diesel"), ("ID", Json.str "assetcar1"),
      ("Mileage", Json.num 10), ("Model", Json.str "Honda Accord"),
      ("Owner", Json.str "Ajith"), ("VIN", Json.str "AB12CD345671"),
      ("Year", Json.num 2023)]) :=
  claim_encode_canonical _ _ (by decide) (by decide)

/-- C2: The canonical encoding is a pure function (it is a Lean function
of the record alone, so equal logical inputs always produce the same
bytes) and is injective on asset records: records that encode to the same
byte sequence are equal in every field. -/
theorem claim_encode_injective (a b : Cars) (h : encodeCars a = encodeCars b) :
    a = b := by
  have ha := parseJson_encodeCars a
  have hb := parseJson_encodeCars b
  rw [h] at ha
  have hobj := ha.symm.trans hb
  simp only [Option.some.injEq, Json.obj.injEq, sortedCarsFields] at hobj
  cases a
  cases b
  simp_all

/-- Witness for C2. -/
theorem claim_encode_injective_witness : seedCar1 = seedCar1 :=
  claim_encode_injective seedCar1 seedCar1 rfl

/-- C3: Creating a record whose `ID` is absent and then reading that `ID`
returns exactly the stored canonical bytes, which decode to a record whose
eight fields all equal the input's.  (`ReadGarageCarAsset` returns the
stored text verbatim; decoding it is the caller's ordinary
deserialization.) -/
theorem claim_create_read_roundtrip (st : WorldState) (a : Cars)
    (h : assetGarageCarExists st a.ID = false) :
    ∃ st', createGarageCarAsset st (Cars.toJson a) = Except.ok st' ∧
      ∃ bs, readGarageCarAsset st' a.ID = Except.ok bs ∧
        ∃ j, parseJson? bs = some j ∧
          jsGet j "ID" = some (.str a.ID) ∧
          jsGet j "Model" = some (.str a.Model) ∧
          jsGet j "Color" = some (.str a.Color) ∧
          jsGet j "Owner" = some (.str a.Owner) ∧
          jsGet j "Year" = some (.num a.Year) ∧
          jsGet j "VIN" = some (.str a.VIN) ∧
          jsGet j "EngineType" = some (.str a.EngineType) ∧
          jsGet j "Mileage" = some (.num a.Mileage) := by
  have hbs : lookupState (putState st a.ID (encodeCars a)) a.ID = some (encodeCars a) :=
    lookupState_putState_self st a.ID (encodeCars a)
  have hne : (encodeCars a).length ≠ 0 := by
    simpa [List.length_eq_zero] using encodeCars_ne_nil a
  refine ⟨putState st a.ID (encodeCars a), by simp [createGarageCarAsset_eq, h],
    encodeCars a, by simp [readGarageCarAsset, getState, hbs, hne],
    Json.obj (sortedCarsFields a), parseJson_encodeCars a, ?_, ?_, ?_, ?_, ?_, ?_, ?_, ?_⟩
  all_goals simp [jsGet, sortedCarsFields, lookupField]

/-- Witness for C3. -/
theorem claim_create_read_roundtrip_witness :
    ∃ st', createGarageCarAsset [] (Cars.toJson seedCar1) = Except.ok st' ∧
      ∃ bs, readGarageCarAsset st' seedCar1.ID = Except.ok bs ∧
        ∃ j, parseJson? bs = some j ∧
          jsGet j "ID" = some (.str seedCar1.ID) ∧
          jsGet j "Model" = some (.str seedCar1.Model) ∧
          jsGet j "Color" = some (.str seedCar1.Color) ∧
          jsGet j "Owner" = some (.str seedCar1.Owner) ∧
          jsGet j "Year" = some (.num seedCar1.Year) ∧
          jsGet j "VIN" = some (.str seedCar1.VIN) ∧
          jsGet j "EngineType" = some (.str seedCar1.EngineType) ∧
          jsGet j "Mileage" = some (.num seedCar1.Mileage) :=
  claim_create_read_roundtrip [] seedCar1 (by decide)

/-- C4: `Create` on an existing `ID` fails with the already-exists error
(the operation throws before any write, so the state — in particular the
value stored under the `ID` — is untouched); on an absent `ID` it succeeds
and its only state effect is the one new key: the new key holds the
canonical encoding and every other key is unchanged. -/
theorem claim_create_exists_guard (st : WorldState) (a : Cars) :
    (assetGarageCarExists st a.ID = true →
      createGarageCarAsset st (Cars.toJson a) =
        Except.error (.alreadyExists a.ID)) ∧
    (assetGarageCarExists st a.ID = false →
      ∃ st', createGarageCarAsset st (Cars.toJson a) = Except.ok st' ∧
        lookupState st' a.ID = some (encodeCars a) ∧
        ∀ k, k ≠ a.ID → lookupState st' k = lookupState st k) := by
  constructor
  · intro h
    simp [createGarageCarAsset_eq, h]
  · intro h
    exact ⟨putState st a.ID (encodeCars a), by simp [createGarageCarAsset_eq, h],
      lookupState_putState_self st a.ID (encodeCars a),
      fun k hk => lookupState_putState_ne st a.ID (encodeCars a) k hk⟩

/-- Witness for C4 (both branches at concrete states). -/
theorem claim_create_exists_guard_witness :
    createGarageCarAsset (initGarageCarLedger []) (Cars.toJson seedCar1) =
      Except.error (.alreadyExists "assetcar1") ∧
    ∃ st', createGarageCarAsset [] (Cars.toJson seedCar1) = Except.ok st' ∧
      lookupState st' "assetcar1" = some (encodeCars seedCar1) ∧
      ∀ k, k ≠ "assetcar1" → lookupState st' k = lookupState [] k :=
  ⟨(claim_create_exists_guard (initGarageCarLedger []) seedCar1).1 (by decide),
   (claim_create_exists_guard [] seedCar1).2 (by decide)⟩

/-- C5: `Update`, `Delete` and `Transfer` on an absent id fail with the
not-found error.  In each operation the existence check (or the failing
read) precedes the single write, so a failure leaves every key of the
state unchanged — in this embedding an `Except.error` result carries no
state change at all. -/
theorem claim_missing_id_errors (st : WorldState) (a : Cars) (id newOwner : String)
    (ha : assetGarageCarExists st a.ID = false)
    (hid : assetGarageCarExists st id = false) :
    updateGarageCarAsset st (Cars.toJson a) = Except.error (.notFound a.ID) ∧
    deleteGarageCarAsset st id = Except.error (.notFound id) ∧
    transferGarageCarAsset st id newOwner = Except.error (.notFound id) := by
  refine ⟨by simp [updateGarageCarAsset_eq, ha], by simp [deleteGarageCarAsset, hid], ?_⟩
  simp [transferGarageCarAsset, readGarageCarAsset, getState_of_not_exists hid]

/-- Witness for C5. -/
theorem claim_missing_id_errors_witness :
    updateGarageCarAsset [] (Cars.toJson seedCar1) =
      Except.error (.notFound "assetcar1") ∧
    deleteGarageCarAsset [] "ghost" = Except.error (.notFound "ghost") ∧
    transferGarageCarAsset [] "ghost" "Emma" = Except.error (.notFound "ghost") :=
  claim_missing_id_errors [] seedCar1 "ghost" "Emma" (by decide) (by decide)

/-- C6: `Transfer` on a state holding a canonically encoded record under
`id` returns the owner stored immediately before the call, and afterwards
the record under `id` is the same record with only `Owner` replaced by the
new owner; every other key of the state is unchanged. -/
theorem claim_transfer_owner (st : WorldState) (id newOwner : String) (a : Cars)
    (h : lookupState st id = some (encodeCars a)) :
    transferGarageCarAsset st id newOwner =
      Except.ok (some (.str a.Owner),
        putState st id (encodeCars (setOwner a newOwner))) ∧
    lookupState (putState st id (encodeCars (setOwner a newOwner))) id =
      some (encodeCars (setOwner a newOwner)) ∧
    ∀ k, k ≠ id →
      lookupState (putState st id (encodeCars (setOwner a newOwner))) k =
        lookupState st k :=
  ⟨transferGarageCarAsset_eq st id newOwner a h,
   lookupState_putState_self st id (encodeCars (setOwner a newOwner)),
   fun k hk => lookupState_putState_ne st id (encodeCars (setOwner a newOwner)) k hk⟩

/-- Witness for C6: transferring the first seed asset to Emma returns
Ajith. -/
theorem claim_transfer_owner_witness :
    transferGarageCarAsset (initGarageCarLedger []) "assetcar1" "Emma" =
      Except.ok (some (.str "Ajith"),
        putState (initGarageCarLedger []) "assetcar1"
          (encodeCars (setOwner seedCar1 "Emma"))) ∧
    lookupState (putState (initGarageCarLedger []) "assetcar1"
        (encodeCars (setOwner seedCar1 "Emma"))) "assetcar1" =
      some (encodeCars (setOwner seedCar1 "Emma")) ∧
    ∀ k, k ≠ "assetcar1" →
      lookupState (putState (initGarageCarLedger []) "assetcar1"
          (encodeCars (setOwner seedCar1 "Emma"))) k =
        lookupState (initGarageCarLedger []) k :=
  claim_transfer_owner (initGarageCarLedger []) "assetcar1" "Emma" seedCar1 (by decide)

/-- C7: On a well-formed state (entries in key order with non-empty
values, which is all the stub ever stores), `Read` fails with the
not-found error exactly when no value is stored under the id; otherwise
it returns the stored bytes verbatim — the caller receives the stored
record text, or raw non-JSON legacy content as-is. -/
theorem claim_read_notfound_iff (st : WorldState) (id : String) (hwf : WFState st) :
    (readGarageCarAsset st id = Except.error (.notFound id) ↔
      lookupState st id = none) ∧
    ∀ bs, lookupState st id = some bs → readGarageCarAsset st id = Except.ok bs := by
  constructor
  · constructor
    · intro h
      cases hl : lookupState st id with
      | none => rfl
      | some bs =>
        have hb : bs ≠ [] := hwf.2 (id, bs) (lookupState_mem st id bs hl)
        have hok : readGarageCarAsset st id = .ok bs := by
          simp [readGarageCarAsset, getState, hl, List.length_eq_zero, hb]
        rw [hok] at h
        exact Except.noConfusion h
    · intro h
      simp [readGarageCarAsset, getState, h]
  · intro bs hl
    have hb : bs ≠ [] := hwf.2 (id, bs) (lookupState_mem st id bs hl)
    simp [readGarageCarAsset, getState, hl, List.length_eq_zero, hb]

/-- Witness for C7. -/
theorem claim_read_notfound_iff_witness :
    ((readGarageCarAsset (initGarageCarLedger []) "ghost" =
        Except.error (.notFound "ghost") ↔
      lookupState (initGarageCarLedger []) "ghost" = none) ∧
    ∀ bs, lookupState (initGarageCarLedger []) "ghost" = some bs →
      readGarageCarAsset (initGarageCarLedger []) "ghost" = Except.ok bs) :=
  claim_read_notfound_iff (initGarageCarLedger []) "ghost" (by decide)

/-- C8: On a well-formed state, `GetAllGarageCars` aggregates one decoded
result per scanned entry, in the scan's key order (the state's own strict
key order), and an entry whose bytes fail to decode is included as its raw
text rather than dropped; the whole call is a total function, so a decode
failure never fails it. -/
theorem claim_getall_total (st : WorldState) (hwf : WFState st) :
    getAllGarageCars st = st.map (fun p => decodeEntry p.2) ∧
    (getAllGarageCars st).length = st.length ∧
    List.Pairwise (fun p q => strLtB p.1 q.1 = true) st ∧
    ∀ p ∈ st, parseJson? p.2 = none →
      Json.str (String.mk p.2) ∈ getAllGarageCars st := by
  refine ⟨getAllGarageCars_eq st, by simp [getAllGarageCars_eq], hwf.1, ?_⟩
  intro p hp hfail
  rw [getAllGarageCars_eq]
  exact List.mem_map.mpr ⟨p, hp, by simp [decodeEntry, hfail]⟩

/-- Witness for C8: a state holding one non-JSON legacy value. -/
theorem claim_getall_total_witness :
    getAllGarageCars [("k", ['h', 'i'])] =
      [("k", ['h', 'i'])].map (fun p => decodeEntry p.2) ∧
    (getAllGarageCars [("k", ['h', 'i'])]).length =
      ([("k", ['h', 'i'])] : WorldState).length ∧
    List.Pairwise (fun p q => strLtB p.1 q.1 = true) [("k", ['h', 'i'])] ∧
    ∀ p ∈ ([("k", ['h', 'i'])] : WorldState), parseJson? p.2 = none →
      Json.str (String.mk p.2) ∈ getAllGarageCars [("k", ['h', 'i'])] :=
  claim_getall_total [("k", ['h', 'i'])] (by decide)

/-- C9: `InitGarageCarLedger` writes the two fixed seed assets through the
same canonical-encode-then-put path with no existence check: on the empty
state, listing afterwards yields exactly the two seed records, each
decodable as a record; and on an arbitrary prior state the seed keys are
simply overwritten with the seed encodings. -/
theorem claim_bootstrap_seeds :
    getAllGarageCars (initGarageCarLedger []) =
      [Json.obj (sortedCarsFields seedCar1), Json.obj (sortedCarsFields seedCar2)] ∧
    parseJson? (encodeCars seedCar1) = some (Json.obj (sortedCarsFields seedCar1)) ∧
    parseJson? (encodeCars seedCar2) = some (Json.obj (sortedCarsFields seedCar2)) ∧
    ∀ st : WorldState,
      lookupState (initGarageCarLedger st) "assetcar1" = some (encodeCars seedCar1) ∧
      lookupState (initGarageCarLedger st) "assetcar2" = some (encodeCars seedCar2) := by
  refine ⟨by decide, parseJson_encodeCars seedCar1, parseJson_encodeCars seedCar2, ?_⟩
  intro st
  constructor
  · rw [show initGarageCarLedger st =
        putState (putState st "assetcar1" (encodeCars seedCar1)) "assetcar2"
          (encodeCars seedCar2) from rfl]
    rw [lookupState_putState_ne _ _ _ _ (by decide)]
    exact lookupState_putState_self _ _ _
  · rw [show initGarageCarLedger st =
        putState (putState st "assetcar1" (encodeCars seedCar1)) "assetcar2"
          (encodeCars seedCar2) from rfl]
    exact lookupState_putState_self _ _ _

/-- C10 counterexample: the string `"null"` parses as JSON, yet `Create`
fails on it — destructuring `null` throws a `TypeError` — so "for every
input string that parses as JSON, Create and Update never fail for
missing or unknown fields" is false as stated. -/
theorem claim_field_lenience_cex :
    createGarageCarAsset [] Json.null = Except.error ContractErr.typeError := by
  simp [createGarageCarAsset]

/-- C10 (amended): for every input that parses as a JSON value other than
`null`, `Create` and `Update` never fail because of missing or unknown
fields — `Create` either succeeds or fails only with the already-exists
error, `Update` either succeeds or fails only with the not-found error;
properties beyond the eight named ones are dropped before persisting,
missing ones are persisted as absent, and the stored record contains at
most the eight named fields. -/
theorem claim_field_lenience (st : WorldState) (j : Json) (hnn : j ≠ Json.null) :
    (createGarageCarAsset st j =
        Except.error (.alreadyExists (keyOf (jsGet j "ID"))) ∨
      createGarageCarAsset st j =
        Except.ok (putState st (keyOf (jsGet j "ID")) (encode (assetObj j)))) ∧
    (updateGarageCarAsset st j = Except.error (.notFound (keyOf (jsGet j "ID"))) ∨
      updateGarageCarAsset st j =
        Except.ok (putState st (keyOf (jsGet j "ID")) (encode (assetObj j)))) ∧
    (∀ k, k ∈ (assetFields j).map Prod.fst → k ∈ the8) ∧
    (∀ k v, k ∈ the8 → jsGet j k = some v → (k, v) ∈ assetFields j) ∧
    (∀ k, jsGet j k = none → k ∉ (assetFields j).map Prod.fst) := by
  refine ⟨?_, ?_, ?_, ?_, ?_⟩
  · by_cases h : assetGarageCarExists st (keyOf (jsGet j "ID")) = true
    · exact Or.inl (by simp [createGarageCarAsset, hnn, h])
    · exact Or.inr (by simp [createGarageCarAsset, hnn, h])
  · by_cases h : assetGarageCarExists st (keyOf (jsGet j "ID")) = true
    · exact Or.inr (by simp [updateGarageCarAsset, hnn, h])
    · exact Or.inl (by simp [updateGarageCarAsset, hnn, h])
  · intro k hk
    rw [List.mem_map] at hk
    obtain ⟨p, hp, hfst⟩ := hk
    obtain ⟨k', hk', hs⟩ := List.mem_filterMap.mp hp
    obtain ⟨v, hv, hpv⟩ := Option.map_eq_some'.mp hs
    subst hpv
    rw [← hfst]
    exact hk'
  · intro k v hk hv
    exact List.mem_filterMap.mpr ⟨k, hk, by simp [hv]⟩
  · intro k hk hmem
    rw [List.mem_map] at hmem
    obtain ⟨p, hp, hfst⟩ := hmem
    obtain ⟨k', hk', hs⟩ := List.mem_filterMap.mp hp
    obtain ⟨v, hv, hpv⟩ := Option.map_eq_some'.mp hs
    subst hpv
    rw [← hfst] at hk
    exact Option.noConfusion (hv.symm.trans hk)

/-- Witness for C10 (amended): an object with an unknown property and
most named fields missing is accepted, the unknown property is dropped
and only the known one is stored. -/
theorem claim_field_lenience_witness :
    (createGarageCarAsset [] lenienceSample =
        Except.error (.alreadyExists (keyOf (jsGet lenienceSample "ID"))) ∨
      createGarageCarAsset [] lenienceSample =
        Except.ok (putState [] (keyOf (jsGet lenienceSample "ID"))
          (encode (assetObj lenienceSample)))) ∧
    (updateGarageCarAsset [] lenienceSample =
        Except.error (.notFound (keyOf (jsGet lenienceSample "ID"))) ∨
      updateGarageCarAsset [] lenienceSample =
        Except.ok (putState [] (keyOf (jsGet lenienceSample "ID"))
          (encode (assetObj lenienceSample)))) ∧
    (∀ k, k ∈ (assetFields lenienceSample).map Prod.fst → k ∈ the8) ∧
    (∀ k v, k ∈ the8 → jsGet lenienceSample k = some v →
      (k, v) ∈ assetFields lenienceSample) ∧
    (∀ k, jsGet lenienceSample k = none →
      k ∉ (assetFields lenienceSample).map Prod.fst) :=
  claim_field_lenience [] lenienceSample (by decide)
